import Mathlib

/-!
Shallow embedding of the Backtester repository's simulated-exchange core
(`src/_binance.py`, `src/binance_futures.py`, `src/helper_funcs.py`,
`src/Backtester.py`) and proofs about the specification claims.

Conventions of the embedding:
* Python floats are modelled as exact rationals (`ℚ`); timestamps as `ℤ`.
* Python dicts are modelled as insertion-ordered association lists
  (`List (key × value)`); `aupdate` keeps the position of an existing key and
  appends new keys at the end, exactly like CPython dicts.
* Python exceptions are modelled by `Except Err`: `ValueError` raised by the
  source's own checks, `KeyError` for a missing dict key, `TypeError` for
  arithmetic on `None`.  Functions that mutate state before they can raise
  return the partially mutated state alongside the error where that matters
  (order submission); the ledger primitives perform all checks before any
  mutation in the source, so for them `Except Err Broker` is faithful.
* Callbacks are identified by the client id that registered them; invoking a
  callback is modelled as emitting an observable event (`Execution` records on
  `Broker.execLog`, `Delivery` events returned by `send_mkt_data`).  The
  `Logger` collaborator is outside the embedded core.
-/

set_option synthInstance.maxSize 1024

/- Core marks the rational-number ring operations irreducible, which blocks
`decide` on concrete states; their definitions are perfectly computable, so
restore reducibility for this development. -/
attribute [local semireducible] Rat.add Rat.mul Rat.sub Rat.inv

-- ===================== association-list model of Python dicts =====================

/-- Lookup in an insertion-ordered association list (Python `d[k]` / `k in d`). -/
def alookup {α β : Type} [DecidableEq α] : List (α × β) → α → Option β
  | [], _ => none
  | (a, b) :: t, k => if a = k then some b else alookup t k

/-- Update `d[k] = v`: replaces in place if the key exists, else appends at the
end, matching CPython dict insertion order. -/
def aupdate {α β : Type} [DecidableEq α] : List (α × β) → α → β → List (α × β)
  | [], k, v => [(k, v)]
  | (a, b) :: t, k, v => if a = k then (k, v) :: t else (a, b) :: aupdate t k v

/-- Remove the first binding of `k` (Python `d.pop(k)` after a presence check). -/
def aerase {α β : Type} [DecidableEq α] : List (α × β) → α → List (α × β)
  | [], _ => []
  | (a, b) :: t, k => if a = k then t else (a, b) :: aerase t k

/-- Python `int(...)` applied to a rational: truncation toward zero. -/
def pyInt (q : ℚ) : ℤ := Int.tdiv q.num q.den

-- ===================== basic data types =====================

/-- Python exception classes that the embedded code can raise. -/
inductive Err : Type
  | valueError
  | keyError
  | typeError
deriving DecidableEq

deriving instance DecidableEq for Except

/-- Order side, `Enums.SIDE_BID` / `Enums.SIDE_ASK` in `_binance.py`. -/
inductive Side : Type
  | bid
  | ask
deriving DecidableEq

/-- Order kind, `Enums.TYPE_MKT` / `Enums.TYPE_LMT`. -/
inductive OType : Type
  | mkt
  | lmt
deriving DecidableEq

/-- The `Order` object of `_binance.py`.  A market order has `lockedPrice`
(`None` until `set_price`), a limit order has `lmtPrice`; the unused attribute
of the other kind is kept as `none`. -/
structure Order : Type where
  orderID : ℕ
  clientID : ℕ
  side : Side
  symbol : String
  quantity : ℚ
  type_ : OType
  lockedPrice : Option ℚ
  lmtPrice : Option ℚ
deriving DecidableEq

/-- `Order.get_value`: value of the order at the given price (market orders)
or at the stored limit price (limit orders).  Returns `none` when the source
would multiply by `None` (a `TypeError`). -/
def Order.get_value (o : Order) (price : Option ℚ) : Option ℚ :=
  match o.type_ with
  | OType.mkt => price.map (fun p => o.quantity * p)
  | OType.lmt => o.lmtPrice.map (fun p => o.quantity * p)

/-- One `[total, locked]` entry of `asset_balances` in `_binance.py`. -/
structure Bal : Type where
  total : ℚ
  locked : ℚ
deriving DecidableEq

/-- One resampled-trade record as stored by `update_trade_data` (the symbol is
the dict key; only `price` and `qty` are read by the core). -/
structure TradeRec : Type where
  price : ℚ
  qty : ℚ
deriving DecidableEq

/-- A kline dict; the core treats it as an opaque payload that is cached and
forwarded, so any dictionary of numeric fields suffices. -/
abbrev Kline := List (String × ℚ)

/-- The execution dict built by `exec_order` and handed to the order's
callback (and logger). -/
structure Execution : Type where
  price : ℚ
  quantity : ℚ
  orderID : ℕ
  symbol : String
  side : Side
  commission : ℚ
deriving DecidableEq

/-- A callback invocation made by `send_mkt_data`: either a mark-price dict or
a kline dict, delivered to the subscriber identified by the client id. -/
inductive Delivery : Type
  | mark (clientID : ℕ) (symbol : String) (markPrice fundingRate : ℚ)
  | kline (clientID : ℕ) (k : Kline)
deriving DecidableEq

-- ===================== exchange constants (`BinanceBroker`) =====================

/-- `BinanceBroker.ASSETS`. -/
def ASSETS : List String := ["USDT", "BTC", "ADA", "AUD"]

/-- `BinanceBroker.SPOT_SYMBOLS`. -/
def SPOT_SYMBOLS : List String := ["BTCUSDT", "ADAAUD"]

/-- `BinanceBroker.MARGIN_SYMBOLS`. -/
def MARGIN_SYMBOLS : List String := ["BTCUSDT"]

/-- `BinanceBroker.COMMISSIONS`. -/
def COMMISSIONS : List (String × ℚ) := [("maker", 1/1000), ("taker", 1/1000)]

-- ===================== helper_funcs.py =====================

/-- `split_symbol`: first index `i` in `range(len(symbol))` such that both the
prefix of length `i` and the remaining suffix are in `assets`; `ValueError`
if none works. -/
def split_symbol (symbol : String) (assets : List String) : Except Err (String × String) :=
  match (List.range symbol.toList.length).filterMap
      (fun i =>
        let p : String := String.mk (symbol.toList.take i)
        let s : String := String.mk (symbol.toList.drop i)
        if p ∈ assets ∧ s ∈ assets then some (p, s) else none) with
  | [] => Except.error Err.valueError
  | pair :: _ => Except.ok pair

/-- `get_keys_above`: the sub-dict of entries whose key satisfies
`int(key) >= min_` (note the `int` truncation in the source). -/
def get_keys_above {β : Type} (d : List (ℚ × β)) (mn : ℚ) : List (ℚ × β) :=
  d.filter (fun p => decide ((pyInt p.1 : ℚ) ≥ mn))

/-- `get_keys_below`: the sub-dict of entries whose key satisfies
`int(key) <= max_`. -/
def get_keys_below {β : Type} (d : List (ℚ × β)) (mx : ℚ) : List (ℚ × β) :=
  d.filter (fun p => decide ((pyInt p.1 : ℚ) ≤ mx))

/-- `clamp` from `helper_funcs.py`. -/
def clamp (num mn mx : ℚ) : ℚ := max (min num mx) mn

-- ===================== broker state =====================

/-- The mutable state of `BinanceBroker` (logger omitted; callback registries
store the registering client ids; `execLog` records the execution dicts that
`exec_order` hands to order callbacks, in order). -/
structure Broker : Type where
  klineStreamingSymbols : List (String × List (String × List (String × List ℕ)))
  mktOrders : List Order
  klines : List (String × List (String × List (String × Kline)))
  orderID : ℕ
  clientID : ℕ
  assetBalances : List (ℕ × List (String × Bal))
  asks : List (String × List (ℚ × List Order))
  bids : List (String × List (ℚ × List Order))
  orders : List (ℕ × Order)
  commissions : List (ℕ × List (String × ℚ))
  tradeData : List (String × List (String × TradeRec))
  klinesUpdated : List (String × List (String × List String))
  fundingRates : List (String × ℚ)
  markPriceSockets : List (String × List ℕ)
  markPrice : List (String × ℚ)
  markPriceUpdated : List String
  execLog : List Execution
deriving DecidableEq

/-- `BinanceBroker.__init__`: empty registries, bid/ask books pre-seeded with
an empty dict per spot symbol, per-market sub-dicts created up front. -/
def initBroker : Broker where
  klineStreamingSymbols := [("spot", []), ("margin", [])]
  mktOrders := []
  klines := [("spot", []), ("margin", [])]
  orderID := 0
  clientID := 0
  assetBalances := []
  asks := [("BTCUSDT", []), ("ADAAUD", [])]
  bids := [("BTCUSDT", []), ("ADAAUD", [])]
  orders := []
  commissions := []
  tradeData := [("spot", []), ("margin", [])]
  klinesUpdated := [("spot", []), ("margin", [])]
  fundingRates := []
  markPriceSockets := []
  markPrice := []
  markPriceUpdated := []
  execLog := []

/-- `BinanceBroker.get_client`: hands out the next client id and initialises
its balance and commission dicts. -/
def get_client (b : Broker) : ℕ × Broker :=
  (b.clientID,
   { b with
     clientID := b.clientID + 1
     assetBalances := aupdate b.assetBalances b.clientID []
     commissions := aupdate b.commissions b.clientID [] })

/-- Convenience read of one balance entry (not a source method). -/
def getBal (b : Broker) (clientID : ℕ) (asset : String) : Option Bal :=
  (alookup b.assetBalances clientID).bind (fun m => alookup m asset)

/-- Convenience write of one balance entry; mirrors the in-place list
mutation `self.asset_balances[clientID][asset][i] += change`. -/
def setBal (b : Broker) (clientID : ℕ) (asset : String) (v : Bal) : Broker :=
  let m := (alookup b.assetBalances clientID).getD []
  { b with assetBalances := aupdate b.assetBalances clientID (aupdate m asset v) }

/-- Convenience read of one commission entry (not a source method). -/
def commOf (b : Broker) (clientID : ℕ) (asset : String) : ℚ :=
  (alookup ((alookup b.commissions clientID).getD []) asset).getD 0

-- ===================== balance ledger =====================

/-- `BinanceBroker.get_assets_available`: `total - locked`; `ValueError` for an
unknown asset or client, `KeyError` when the client never held the asset. -/
def get_assets_available (b : Broker) (clientID : ℕ) (asset : String) : Except Err ℚ :=
  if asset ∈ ASSETS then
    match alookup b.assetBalances clientID with
    | none => Except.error Err.valueError
    | some m =>
      match alookup m asset with
      | none => Except.error Err.keyError
      | some e => Except.ok (e.total - e.locked)
  else Except.error Err.valueError

/-- `BinanceBroker.change_total_asset_balance`: rejects only a change that
would drive `total` negative; the guard `change < 0 and total + change < 0`
short-circuits, so the entry is read inside the guard only for negative
changes, and again (unconditionally) by the mutation itself. -/
def change_total_asset_balance (b : Broker) (clientID : ℕ) (asset : String) (change : ℚ) :
    Except Err Broker :=
  if asset ∈ ASSETS then
    match alookup b.assetBalances clientID with
    | none => Except.error Err.valueError
    | some m =>
      if change < 0 then
        match alookup m asset with
        | none => Except.error Err.keyError
        | some e =>
          if e.total + change < 0 then Except.error Err.valueError
          else Except.ok (setBal b clientID asset ⟨e.total + change, e.locked⟩)
      else
        match alookup m asset with
        | none => Except.error Err.keyError
        | some e => Except.ok (setBal b clientID asset ⟨e.total + change, e.locked⟩)
  else Except.error Err.valueError

/-- `BinanceBroker.change_locked_asset_balance`: same shape as the total
variant, but guarding and mutating the `locked` component. -/
def change_locked_asset_balance (b : Broker) (clientID : ℕ) (asset : String) (change : ℚ) :
    Except Err Broker :=
  if asset ∈ ASSETS then
    match alookup b.assetBalances clientID with
    | none => Except.error Err.valueError
    | some m =>
      if change < 0 then
        match alookup m asset with
        | none => Except.error Err.keyError
        | some e =>
          if e.locked + change < 0 then Except.error Err.valueError
          else Except.ok (setBal b clientID asset ⟨e.total, e.locked + change⟩)
      else
        match alookup m asset with
        | none => Except.error Err.keyError
        | some e => Except.ok (setBal b clientID asset ⟨e.total, e.locked + change⟩)
  else Except.error Err.valueError

/-- `BinanceBroker.add_account_balance`: rejects a negative amount, creates the
`[0, 0]` entry if the asset was never held, then adds to `total`. -/
def add_account_balance (b : Broker) (clientID : ℕ) (asset : String) (amount_added : ℚ) :
    Except Err Broker :=
  if asset ∈ ASSETS then
    match alookup b.assetBalances clientID with
    | none => Except.error Err.valueError
    | some m =>
      if amount_added < 0 then Except.error Err.valueError
      else
        let e := (alookup m asset).getD ⟨0, 0⟩
        Except.ok (setBal b clientID asset ⟨e.total + amount_added, e.locked⟩)
  else Except.error Err.valueError

-- ===================== internal market data methods =====================

/-- `BinanceBroker.get_price`: last trade price of a symbol in market `mkt`
(`"spot"` or `"margin"`); any other market string raises `ValueError`.  Note
`create_mkt_order` calls this with `mkt='mkt'`. -/
def get_price (b : Broker) (symbol : String) (mkt : String) : Except Err ℚ :=
  if mkt = "spot" then
    if symbol ∈ SPOT_SYMBOLS then
      match alookup b.tradeData mkt with
      | none => Except.error Err.keyError
      | some td =>
        match alookup td symbol with
        | none => Except.error Err.valueError
        | some tr => Except.ok tr.price
    else Except.error Err.valueError
  else if mkt = "margin" then
    if symbol ∈ MARGIN_SYMBOLS then
      match alookup b.tradeData mkt with
      | none => Except.error Err.keyError
      | some td =>
        match alookup td symbol with
        | none => Except.error Err.valueError
        | some tr => Except.ok tr.price
    else Except.error Err.valueError
  else Except.error Err.valueError

/-- `BinanceBroker.update_trade_data`: stores the trade dict under its symbol
(the source keys the dict by `trade_data['symbol']`; here the symbol is passed
alongside the record). -/
def update_trade_data (b : Broker) (symbol : String) (td : TradeRec) (mkt : String) :
    Except Err Broker :=
  match alookup b.tradeData mkt with
  | none => Except.error Err.keyError
  | some m => Except.ok { b with tradeData := aupdate b.tradeData mkt (aupdate m symbol td) }

/-- `BinanceBroker.update_klines`: overwrites the cached kline for the key and
appends the interval to the per-symbol updated list (no duplicate check, unlike
`update_mark_price`). -/
def update_klines (b : Broker) (symbol interval : String) (kline : Kline) (mkt : String) :
    Except Err Broker :=
  match alookup b.klines mkt with
  | none => Except.error Err.keyError
  | some symMap =>
    let inner := (alookup symMap symbol).getD []
    let klines' := aupdate b.klines mkt (aupdate symMap symbol (aupdate inner interval kline))
    match alookup b.klinesUpdated mkt with
    | none => Except.error Err.keyError
    | some um =>
      let lst := (alookup um symbol).getD []
      let updated' := aupdate b.klinesUpdated mkt (aupdate um symbol (lst ++ [interval]))
      Except.ok { b with klines := klines', klinesUpdated := updated' }

/-- `BinanceBroker.update_mark_price`: stores the price and records the symbol
as updated, skipping the record when it is already flagged. -/
def update_mark_price (b : Broker) (symbol : String) (price : ℚ) : Broker :=
  let b1 := { b with markPrice := aupdate b.markPrice symbol price }
  if symbol ∈ b1.markPriceUpdated then b1
  else { b1 with markPriceUpdated := b1.markPriceUpdated ++ [symbol] }

-- ===================== send_mkt_data =====================

/-- Mark-price section of `send_mkt_data`: for every flagged symbol, build the
mark-price dict and deliver it to every socket of that symbol (missing
`mark_price`, `funding_rates` or `mark_price_sockets` entries raise
`KeyError` exactly as the source's dict accesses would). -/
def sendMarkLoop (b : Broker) : List String → Except Err (List Delivery)
  | [] => Except.ok []
  | s :: rest =>
    match alookup b.markPrice s with
    | none => Except.error Err.keyError
    | some mp =>
      match alookup b.fundingRates s with
      | none => Except.error Err.keyError
      | some fr =>
        match alookup b.markPriceSockets s with
        | none => Except.error Err.keyError
        | some socks =>
          match sendMarkLoop b rest with
          | Except.error e => Except.error e
          | Except.ok ds =>
            Except.ok (socks.map (fun cid => Delivery.mark cid s mp fr) ++ ds)

/-- Interval loop of the kline section of `send_mkt_data`: the two `continue`
guards skip keys that are not streamed; the kline cache lookups raise
`KeyError` when the cached value is missing. -/
def sendKlineIvLoop (b : Broker) (mkt symbol : String) : List String → Except Err (List Delivery)
  | [] => Except.ok []
  | iv :: rest =>
    match alookup b.klineStreamingSymbols mkt with
    | none => Except.error Err.keyError
    | some streamSym =>
      match alookup streamSym symbol with
      | none => sendKlineIvLoop b mkt symbol rest
      | some ivMap =>
        match alookup ivMap iv with
        | none => sendKlineIvLoop b mkt symbol rest
        | some socks =>
          match alookup b.klines mkt with
          | none => Except.error Err.keyError
          | some km =>
            match alookup km symbol with
            | none => Except.error Err.keyError
            | some im =>
              match alookup im iv with
              | none => Except.error Err.keyError
              | some k =>
                match sendKlineIvLoop b mkt symbol rest with
                | Except.error e => Except.error e
                | Except.ok ds =>
                  Except.ok (socks.map (fun cid => Delivery.kline cid k) ++ ds)

/-- Symbol loop of the kline section of `send_mkt_data`. -/
def sendKlineSymLoop (b : Broker) (mkt : String) :
    List (String × List String) → Except Err (List Delivery)
  | [] => Except.ok []
  | (s, ivs) :: rest =>
    match sendKlineIvLoop b mkt s ivs with
    | Except.error e => Except.error e
    | Except.ok ds =>
      match sendKlineSymLoop b mkt rest with
      | Except.error e => Except.error e
      | Except.ok ds' => Except.ok (ds ++ ds')

/-- `BinanceBroker.send_mkt_data`: delivers mark-price updates, then spot
klines, then margin klines, and clears both dirty sets.  Returns the new state
and the callback invocations in order. -/
def send_mkt_data (b : Broker) : Except Err (Broker × List Delivery) :=
  match sendMarkLoop b b.markPriceUpdated with
  | Except.error e => Except.error e
  | Except.ok marks =>
    let b1 := { b with markPriceUpdated := [] }
    match alookup b1.klinesUpdated "spot" with
    | none => Except.error Err.keyError
    | some spotUpd =>
      match sendKlineSymLoop b1 "spot" spotUpd with
      | Except.error e => Except.error e
      | Except.ok ds1 =>
        match alookup b1.klinesUpdated "margin" with
        | none => Except.error Err.keyError
        | some marginUpd =>
          match sendKlineSymLoop b1 "margin" marginUpd with
          | Except.error e => Except.error e
          | Except.ok ds2 =>
            Except.ok ({ b1 with klinesUpdated := [("spot", []), ("margin", [])] },
                       marks ++ ds1 ++ ds2)

-- ===================== order creation =====================

/-- `BinanceBroker.create_mkt_order`.  The order id counter is incremented as
soon as the order object exists; the returned state therefore carries the
incremented counter even when a later check raises.  For a Bid the source
locks `assets[0]` by the order value at `get_price(symbol, mkt='mkt')` —
`'mkt'` is not a recognised market, so `get_price` raises `ValueError` —
and would afterwards cache the price on the order via `set_price` (a second
`get_price(mkt='mkt')` call).  For an Ask it locks `assets[1]` by the
quantity.  (Logger rows are outside the embedded core.) -/
def create_mkt_order (b : Broker) (clientID : ℕ) (symbol : String) (quantity : ℚ)
    (side : Side) : Except Err ℕ × Broker :=
  let order : Order :=
    ⟨b.orderID, clientID, side, symbol, quantity, OType.mkt, none, none⟩
  let b1 := { b with orderID := b.orderID + 1 }
  match split_symbol symbol ASSETS with
  | Except.error e => (Except.error e, b1)
  | Except.ok assets =>
    match side with
    | Side.bid =>
      match get_price b1 symbol "mkt" with
      | Except.error e => (Except.error e, b1)
      | Except.ok p =>
        match order.get_value (some p) with
        | none => (Except.error Err.typeError, b1)
        | some v =>
          match change_locked_asset_balance b1 clientID assets.1 v with
          | Except.error e => (Except.error e, b1)
          | Except.ok b2 =>
            match get_price b2 symbol "mkt" with
            | Except.error e => (Except.error e, b2)
            | Except.ok p2 =>
              let order := { order with lockedPrice := some p2 }
              let b3 := { b2 with
                mktOrders := b2.mktOrders ++ [order]
                orders := aupdate b2.orders order.orderID order }
              (Except.ok order.orderID, b3)
    | Side.ask =>
      match change_locked_asset_balance b1 clientID assets.2 order.quantity with
      | Except.error e => (Except.error e, b1)
      | Except.ok b2 =>
        let b3 := { b2 with
          mktOrders := b2.mktOrders ++ [order]
          orders := aupdate b2.orders order.orderID order }
        (Except.ok order.orderID, b3)

/-- Insert a limit order at its price level: create the symbol dict if absent,
append to an existing level or open a new one. -/
def insertLevel (book : List (String × List (ℚ × List Order))) (symbol : String)
    (price : ℚ) (o : Order) : List (String × List (ℚ × List Order)) :=
  let lvls := (alookup book symbol).getD []
  aupdate book symbol (aupdate lvls price ((alookup lvls price).getD [] ++ [o]))

/-- `BinanceBroker.create_lmt_order`: locks `assets[0]` by `quantity ×
lmt_price` for a Bid or `assets[1]` by `quantity` for an Ask, then rests the
order in the bid/ask book at its exact limit price. -/
def create_lmt_order (b : Broker) (clientID : ℕ) (symbol : String) (quantity : ℚ)
    (side : Side) (lmt_price : ℚ) : Except Err ℕ × Broker :=
  let order : Order :=
    ⟨b.orderID, clientID, side, symbol, quantity, OType.lmt, none, some lmt_price⟩
  let b1 := { b with orderID := b.orderID + 1 }
  match split_symbol symbol ASSETS with
  | Except.error e => (Except.error e, b1)
  | Except.ok assets =>
    let lockRes :=
      match side with
      | Side.bid =>
        match order.get_value none with
        | none => Except.error Err.typeError
        | some v => change_locked_asset_balance b1 clientID assets.1 v
      | Side.ask => change_locked_asset_balance b1 clientID assets.2 order.quantity
    match lockRes with
    | Except.error e => (Except.error e, b1)
    | Except.ok b2 =>
      let b3 :=
        match side with
        | Side.bid => { b2 with bids := insertLevel b2.bids symbol lmt_price order }
        | Side.ask => { b2 with asks := insertLevel b2.asks symbol lmt_price order }
      let b4 := { b3 with orders := aupdate b3.orders order.orderID order }
      (Except.ok order.orderID, b4)

-- ===================== order removal =====================

/-- One pass of the source's find-and-`pop(i)` loop: remove the first order
with the given id, or report that none was found. -/
def popFirstByID (oid : ℕ) : List Order → Option (List Order)
  | [] => none
  | o :: rest =>
    if o.orderID = oid then some rest
    else (popFirstByID oid rest).map (fun l => o :: l)

/-- `BinanceBroker.remove_order`: pops the order from the market queue or from
its bid/ask price level and returns early, leaving `self.orders` untouched;
only when the order is found in no structure does control fall through to
`self.orders.pop(orderID)`.  Dict accesses on a foreign symbol or price raise
`KeyError`; reading `lmt_price` off a market order is the attribute error
case. -/
def remove_order (b : Broker) (o : Order) : Except Err Broker :=
  match o.type_ with
  | OType.mkt =>
    match popFirstByID o.orderID b.mktOrders with
    | some l => Except.ok { b with mktOrders := l }
    | none =>
      if (alookup b.orders o.orderID).isSome then
        Except.ok { b with orders := aerase b.orders o.orderID }
      else Except.error Err.keyError
  | OType.lmt =>
    match o.lmtPrice with
    | none => Except.error Err.typeError
    | some lp =>
      match o.side with
      | Side.bid =>
        match alookup b.bids o.symbol with
        | none => Except.error Err.keyError
        | some lvls =>
          match alookup lvls lp with
          | none => Except.error Err.keyError
          | some l =>
            match popFirstByID o.orderID l with
            | some l' =>
              Except.ok { b with bids := aupdate b.bids o.symbol (aupdate lvls lp l') }
            | none =>
              if (alookup b.orders o.orderID).isSome then
                Except.ok { b with orders := aerase b.orders o.orderID }
              else Except.error Err.keyError
      | Side.ask =>
        match alookup b.asks o.symbol with
        | none => Except.error Err.keyError
        | some lvls =>
          match alookup lvls lp with
          | none => Except.error Err.keyError
          | some l =>
            match popFirstByID o.orderID l with
            | some l' =>
              Except.ok { b with asks := aupdate b.asks o.symbol (aupdate lvls lp l') }
            | none =>
              if (alookup b.orders o.orderID).isSome then
                Except.ok { b with orders := aerase b.orders o.orderID }
              else Except.error Err.keyError

/-- `BinanceBroker.close_order`: `ValueError` for an unknown id, otherwise
`remove_order` on the stored order object. -/
def close_order (b : Broker) (orderID : ℕ) : Except Err Broker :=
  match alookup b.orders orderID with
  | none => Except.error Err.valueError
  | some o => remove_order b o

-- ===================== order execution =====================

/-- `BinanceBroker.calc_slippage`: identity pass-through (stubbed in the
source pending order-book depth data). -/
def calc_slippage (price : ℚ) (symbol : String) : ℚ := price

/-- The execution dict built at the top of `exec_order`. -/
def mkExecution (o : Order) (price comm : ℚ) : Execution :=
  ⟨price, o.quantity, o.orderID, o.symbol, o.side, comm⟩

/-- `BinanceBroker.calc_commission`: maker or taker rate times the order value
at the execution price (for both order kinds the value is `quantity × price`;
market orders go through `get_value(price=price)`). -/
def calc_commission (o : Order) (price : ℚ) (maker : Bool) : ℚ :=
  let rate := if maker then (alookup COMMISSIONS "maker").getD 0
              else (alookup COMMISSIONS "taker").getD 0
  let value :=
    match o.type_ with
    | OType.mkt => ((Order.get_value o (some price)).getD 0)
    | OType.lmt => o.quantity * price
  value * rate

/-- `BinanceBroker.add_commission`: accumulates the commission in the client's
commissions dict only; asset balances are not touched. -/
def add_commission (b : Broker) (clientID : ℕ) (asset : String) (commission : ℚ) :
    Except Err Broker :=
  if asset ∈ ASSETS then
    match alookup b.commissions clientID with
    | none => Except.error Err.keyError
    | some cm =>
      let cm' :=
        match alookup cm asset with
        | none => aupdate cm asset commission
        | some c => aupdate cm asset (c + commission)
      Except.ok { b with commissions := aupdate b.commissions clientID cm' }
  else Except.error Err.valueError

/-- `BinanceBroker.exec_order`: slippage adjustment, execution dict, then the
ledger legs — Bid: unlock `assets[0]` by the order value (locked price for a
market order, limit price otherwise), debit `assets[0]` by `quantity × price`,
credit `assets[1]` by `quantity`; Ask: unlock and debit `assets[1]` by
`quantity`, credit `assets[0]` by `quantity × price` — then `add_commission`
on `assets[0]` and finally the callback invocation (recorded on `execLog`). -/
def exec_order (b : Broker) (o : Order) (price0 comm : ℚ) : Except Err Broker :=
  let price := calc_slippage price0 o.symbol
  let execution := mkExecution o price comm
  match split_symbol o.symbol ASSETS with
  | Except.error e => Except.error e
  | Except.ok assets =>
    let step :=
      match o.side with
      | Side.bid =>
        let lockVal :=
          match o.type_ with
          | OType.mkt => o.get_value o.lockedPrice
          | OType.lmt => o.get_value none
        match lockVal with
        | none => Except.error Err.typeError
        | some v =>
          match change_locked_asset_balance b o.clientID assets.1 (-v) with
          | Except.error e => Except.error e
          | Except.ok b1 =>
            match change_total_asset_balance b1 o.clientID assets.1 (-(o.quantity * price)) with
            | Except.error e => Except.error e
            | Except.ok b2 => change_total_asset_balance b2 o.clientID assets.2 o.quantity
      | Side.ask =>
        match change_locked_asset_balance b o.clientID assets.2 (-o.quantity) with
        | Except.error e => Except.error e
        | Except.ok b1 =>
          match change_total_asset_balance b1 o.clientID assets.2 (-o.quantity) with
          | Except.error e => Except.error e
          | Except.ok b2 => change_total_asset_balance b2 o.clientID assets.1 (o.quantity * price)
    match step with
    | Except.error e => Except.error e
    | Except.ok b3 =>
      match add_commission b3 o.clientID assets.1 comm with
      | Except.error e => Except.error e
      | Except.ok b4 => Except.ok { b4 with execLog := b4.execLog ++ [execution] }

-- ===================== check_orders =====================

/-- The list object the source's inner loop iterates over: the current
contents of one price level of the bid (`isBids = true`) or ask book.  The
loop mutates this list in place through `remove_order` while iterating. -/
def liveLevel (b : Broker) (isBids : Bool) (symbol : String) (lvl : ℚ) : List Order :=
  let book := if isBids then b.bids else b.asks
  (alookup ((alookup book symbol).getD []) lvl).getD []

/-- The `for order in orders` loop of `check_orders` over one price level,
with CPython list-iterator semantics: the iterator keeps a position index into
the live list, `remove_order` pops the current element in place, so the
element that slides into the vacated position is skipped.  `fuel` bounds the
iteration count; since the level list never grows, `initial length + 1` fuel
is enough for the loop to reach its exit condition. -/
def levelLoop (symbol : String) (isBids : Bool) (lvl price : ℚ) :
    ℕ → Broker → ℕ → Except Err Broker
  | 0, b, _ => Except.ok b
  | fuel + 1, b, i =>
    let l := liveLevel b isBids symbol lvl
    if h : i < l.length then
      let o := l.get ⟨i, h⟩
      match exec_order b o price (calc_commission o price true) with
      | Except.error e => Except.error e
      | Except.ok b1 =>
        match remove_order b1 o with
        | Except.error e => Except.error e
        | Except.ok b2 => levelLoop symbol isBids lvl price fuel b2 (i + 1)
    else Except.ok b

/-- The `for orders in valid_*.values()` loop: the key set was snapshotted by
`get_keys_above`/`get_keys_below` before any execution, the value lists are
aliases of the live book levels. -/
def levelsLoop (symbol : String) (isBids : Bool) (price : ℚ) :
    List ℚ → Broker → Except Err Broker
  | [], b => Except.ok b
  | k :: ks, b =>
    let n := (liveLevel b isBids symbol k).length
    match levelLoop symbol isBids k price (n + 1) b 0 with
    | Except.error e => Except.error e
    | Except.ok b1 => levelsLoop symbol isBids price ks b1

/-- The `for order in self.mkt_orders` loop: executes every pending market
order at the reference price with taker commission; nothing is removed during
the loop (the queue is cleared afterwards). -/
def mktLoop (price : ℚ) : List Order → Broker → Except Err Broker
  | [], b => Except.ok b
  | o :: rest, b =>
    match exec_order b o price (calc_commission o price false) with
    | Except.error e => Except.error e
    | Except.ok b1 => mktLoop price rest b1

/-- `BinanceBroker.check_orders`: fetch the reference price, snapshot the
eligible bid levels (`int(key) >= price`) and ask levels (`int(key) <=
price`), execute the bid levels then the ask levels then the market queue,
and clear the market queue.  (The per-step `ASSETS` logger row is outside the
embedded core.) -/
def check_orders (b : Broker) (symbol : String) (mkt : String) : Except Err Broker :=
  match get_price b symbol mkt with
  | Except.error e => Except.error e
  | Except.ok price =>
    let validAskKeys : Option (List ℚ) :=
      match alookup b.asks symbol with
      | none => none
      | some lvls => some ((get_keys_below lvls price).map Prod.fst)
    let validBidKeys : Option (List ℚ) :=
      match alookup b.bids symbol with
      | none => none
      | some lvls => some ((get_keys_above lvls price).map Prod.fst)
    let r1 :=
      match validBidKeys with
      | none => Except.ok b
      | some ks => levelsLoop symbol true price ks b
    match r1 with
    | Except.error e => Except.error e
    | Except.ok b1 =>
      let r2 :=
        match validAskKeys with
        | none => Except.ok b1
        | some ks => levelsLoop symbol false price ks b1
      match r2 with
      | Except.error e => Except.error e
      | Except.ok b2 =>
        match mktLoop price b2.mktOrders b2 with
        | Except.error e => Except.error e
        | Except.ok b3 => Except.ok { b3 with mktOrders := [] }

-- ===================== margin accounts =====================

/-- The fields of `MarginAccountUSDM`, shared by the `_binance.py` and
`binance_futures.py` variants (Python's `int` leverage is embedded in `ℚ`). -/
structure MarginAccountUSDM : Type where
  symbol : String
  size : ℚ
  entry_price : ℚ
  leverage : ℚ
  mark_price : ℚ
  wallet : ℚ
  main_rate : ℚ
deriving DecidableEq

namespace BinanceMargin

/-- `MarginAccountUSDM.get_maintenance_margin` (`_binance.py`). -/
def get_maintenance_margin (a : MarginAccountUSDM) : ℚ :=
  a.mark_price * a.size * a.main_rate

/-- `MarginAccountUSDM.get_pnl` (`_binance.py`). -/
def get_pnl (a : MarginAccountUSDM) : ℚ :=
  (a.mark_price - a.entry_price) * a.size

/-- `MarginAccountUSDM.get_max_removable` (`_binance.py`): note the final term
multiplies by the leverage. -/
def get_max_removable (a : MarginAccountUSDM) : ℚ :=
  let min_comp := min (a.wallet - get_maintenance_margin a)
    (a.wallet + a.size * (a.mark_price - a.entry_price) - a.mark_price * |a.size| * a.leverage)
  max min_comp 0

/-- `MarginAccountUSDM.set_leverage` (`_binance.py`): refuses when a position
is open and the current leverage exceeds the requested one; otherwise stores
the new leverage.  Returns the Python method's boolean alongside the
account. -/
def set_leverage (a : MarginAccountUSDM) (leverage : ℚ) : Bool × MarginAccountUSDM :=
  if a.size ≠ 0 ∧ a.leverage > leverage then (false, a)
  else (true, { a with leverage := leverage })

end BinanceMargin

namespace FuturesMargin

/-- `MarginAccountUSDM.get_maintenance_margin` (`binance_futures.py`). -/
def get_maintenance_margin (a : MarginAccountUSDM) : ℚ :=
  a.mark_price * a.size * a.main_rate

/-- `MarginAccountUSDM.get_pnl` (`binance_futures.py`). -/
def get_pnl (a : MarginAccountUSDM) : ℚ :=
  (a.mark_price - a.entry_price) * a.size

/-- `MarginAccountUSDM.get_max_removable` (`binance_futures.py`): the final
term multiplies by `1 / leverage`. -/
def get_max_removable (a : MarginAccountUSDM) : ℚ :=
  let min_comp := min (a.wallet - get_maintenance_margin a)
    (a.wallet + a.size * (a.mark_price - a.entry_price) -
      a.mark_price * |a.size| * (1 / a.leverage))
  max min_comp 0

/-- `MarginAccountUSDM.set_leverage` (`binance_futures.py`): identical logic
to the `_binance.py` variant. -/
def set_leverage (a : MarginAccountUSDM) (leverage : ℚ) : Bool × MarginAccountUSDM :=
  if a.size ≠ 0 ∧ a.leverage > leverage then (false, a)
  else (true, { a with leverage := leverage })

end FuturesMargin

/-- Spec formula for the maximum removable margin, written from the spec text
for comparison with the two implementations: `max(0, min(wallet −
maintenance_margin, wallet + pnl − mark_price × |size| / leverage))` with
`maintenance_margin = mark_price × size × maintenance_rate` and `pnl =
(mark_price − entry_price) × size`. -/
def specMaxRemovable (a : MarginAccountUSDM) : ℚ :=
  max 0 (min (a.wallet - a.mark_price * a.size * a.main_rate)
    (a.wallet + (a.mark_price - a.entry_price) * a.size - a.mark_price * |a.size| / a.leverage))

-- ===================== backtester driver =====================

/-- One resampled trade row of `binance_trade_data` (fields the driver
reads). -/
structure TradeRow : Type where
  time : ℤ
  symbol : String
  price : ℚ
  qty : ℚ
deriving DecidableEq

/-- One kline row of `kline_data` (fields the driver reads). -/
structure KlineRow : Type where
  closeTime : ℤ
  symbol : String
  interval : String
deriving DecidableEq

/-- The calls `run_backtest` makes on the broker, in order: a trade-data
update, a `check_orders` pass for a symbol, a kline flush, or the per-step
`send_mkt_data`. -/
inductive Ev : Type
  | tick (r : TradeRow)
  | chk (symbol : String)
  | kline (k : KlineRow)
  | send
deriving DecidableEq

/-- The inner `while` over trade rows: consume rows while the cursor is in
range and the row's timestamp is at most the step time, emitting the
trade-data update immediately followed by its `check_orders` call. -/
def tickLoop (T : ℤ) : List TradeRow → List Ev × List TradeRow
  | [] => ([], [])
  | r :: rest =>
    if r.time ≤ T then
      let p := tickLoop T rest
      (Ev.tick r :: Ev.chk r.symbol :: p.1, p.2)
    else ([], r :: rest)

/-- The inner `while` over kline rows: flush rows whose close time is at most
the step time. -/
def klineLoop (T : ℤ) : List KlineRow → List Ev × List KlineRow
  | [] => ([], [])
  | k :: rest =>
    if k.closeTime ≤ T then
      let p := klineLoop T rest
      (Ev.kline k :: p.1, p.2)
    else ([], k :: rest)

/-- `Backtester.run_backtest` as the trace of broker calls it makes: while
trade rows remain, set the step time to the head row's timestamp, apply every
due trade row (each immediately followed by its `check_orders`), flush every
due kline, and call `send_mkt_data` once.  `fuel` bounds the number of steps;
each step consumes at least the head trade row, so `trades.length` fuel always
reaches the real termination condition. -/
def run_backtest : ℕ → List TradeRow → List KlineRow → List Ev
  | 0, _, _ => []
  | _, [], _ => []
  | fuel + 1, r :: trades, klines =>
    let T := r.time
    let p := tickLoop T (r :: trades)
    let q := klineLoop T klines
    p.1 ++ q.1 ++ [Ev.send] ++ run_backtest fuel p.2 q.2

-- ===================== predicates and concrete states used by the theorems =====================

/-- Non-negativity of every entry of one client balance dict. -/
def NonnegAcct (m : List (String × Bal)) : Prop :=
  ∀ p ∈ m, 0 ≤ p.2.total ∧ 0 ≤ p.2.locked

/-- Non-negativity of every balance entry of every client. -/
def NonnegLedger (b : Broker) : Prop :=
  ∀ q ∈ b.assetBalances, NonnegAcct q.2

instance (m : List (String × Bal)) : Decidable (NonnegAcct m) := by
  unfold NonnegAcct; infer_instance

instance (b : Broker) : Decidable (NonnegLedger b) := by
  unfold NonnegLedger; infer_instance

/-- The amount `exec_order` unlocks for a Bid: the order value at the locked
price (market order) or at the limit price (limit order). -/
def lockValue (o : Order) : Option ℚ :=
  match o.type_ with
  | OType.mkt => o.get_value o.lockedPrice
  | OType.lmt => o.get_value none

/-- A fresh broker with one registered client (id 0). -/
def cBase : Broker := (get_client initBroker).2

/-- Client 0 funded with 1000 USDT (5 of it locked) and 10 BTC. -/
def cFunded : Broker :=
  { cBase with assetBalances := [(0, [("USDT", ⟨1000, 5⟩), ("BTC", ⟨10, 0⟩)])] }

/-- `cFunded` after a reference trade at 50000 for BTCUSDT has arrived. -/
def c2State : Broker :=
  { cFunded with tradeData := [("spot", [("BTCUSDT", ⟨50000, 1⟩)]), ("margin", [])] }

/-- A resting limit Ask for 1 BTCUSDT at limit price 100 owned by client 0. -/
def c3Order : Order := ⟨0, 0, Side.ask, "BTCUSDT", 1, OType.lmt, none, some 100⟩

/-- Balances for the `exec_order` analysis: 5 USDT (2 locked), 10 BTC. -/
def c3State : Broker :=
  { cBase with assetBalances := [(0, [("USDT", ⟨5, 2⟩), ("BTC", ⟨10, 0⟩)])] }

/-- Result of executing `c3Order` on `c3State` at price 100 with commission
1/10: USDT unlock and debit by the quantity 1, BTC credit by the full
`quantity × price = 100`, commission recorded separately. -/
def c3Result : Broker :=
  { c3State with
    assetBalances := [(0, [("USDT", ⟨4, 1⟩), ("BTC", ⟨110, 0⟩)])]
    commissions := [(0, [("BTC", 1/10)])]
    execLog := [⟨100, 1, 0, "BTCUSDT", Side.ask, 1/10⟩] }

/-- Margin account with an open long of size 1 at leverage 5. -/
def c4Acc : MarginAccountUSDM := ⟨"BTCUSDT", 1, 100, 5, 100, 1000, 1/100⟩

/-- Margin account with an open long of size 1 at leverage 2 (wallet 1000,
entry = mark = 100, maintenance rate 0.005). -/
def c5Acc : MarginAccountUSDM := ⟨"BTCUSDT", 1, 100, 2, 100, 1000, 1/200⟩

/-- Broker state reached through the public api: client 0 funded with 10 USDT
and 10 BTC, a reference trade at price 1 for BTCUSDT, and two resting limit
Asks (order ids 0 and 1) of quantity 1 at the fractional price level 3/2. -/
def c6Book : Broker :=
  let b := cBase
  let b := ((add_account_balance b 0 "USDT" 10).toOption).getD b
  let b := ((add_account_balance b 0 "BTC" 10).toOption).getD b
  let b := ((update_trade_data b "BTCUSDT" ⟨1, 1⟩ "spot").toOption).getD b
  let b := (create_lmt_order b 0 "BTCUSDT" 1 Side.ask (3/2)).2
  (create_lmt_order b 0 "BTCUSDT" 1 Side.ask (3/2)).2

/-- The first resting ask of `c6Book` (order id 0). -/
def c7Ord0 : Order := ⟨0, 0, Side.ask, "BTCUSDT", 1, OType.lmt, none, some (3/2)⟩

/-- The second resting ask of `c6Book` (order id 1). -/
def c7Ord1 : Order := ⟨1, 0, Side.ask, "BTCUSDT", 1, OType.lmt, none, some (3/2)⟩

/-- Contents of one ask price level (observation helper). -/
def askLevel (b : Broker) (symbol : String) (lvl : ℚ) : List Order :=
  (alookup ((alookup b.asks symbol).getD []) lvl).getD []

/-- Broker with one subscriber (client 7) for spot BTCUSDT 1m klines and a
clean dirty set. -/
def c8Base : Broker :=
  { initBroker with
    klineStreamingSymbols := [("spot", [("BTCUSDT", [("1m", [7])])]), ("margin", [])] }

/-- First kline payload of the coalescing scenario. -/
def c8k1 : Kline := [("close", 1)]

/-- Second kline payload of the coalescing scenario. -/
def c8k2 : Kline := [("close", 2)]

/-- Two trade ticks sharing timestamp 10 on different symbols, then one at
20. -/
def c9Trades : List TradeRow := [⟨10, "BTCUSDT", 1, 1⟩, ⟨10, "ADAAUD", 2, 1⟩, ⟨20, "BTCUSDT", 3, 1⟩]

/-- Two kline rows with close times 9 and 15. -/
def c9Klines : List KlineRow := [⟨9, "BTCUSDT", "1m"⟩, ⟨15, "BTCUSDT", "1m"⟩]

-- ===================== association-list lemmas =====================

theorem alookup_aupdate_self {α β : Type} [DecidableEq α] (l : List (α × β)) (k : α) (v : β) :
    alookup (aupdate l k v) k = some v := by
  induction l with
  | nil => simp [aupdate, alookup]
  | cons hd t ih =>
    obtain ⟨a, b⟩ := hd
    by_cases h : a = k
    · simp [aupdate, h, alookup]
    · simp [aupdate, h, alookup, ih]

theorem alookup_aupdate_ne {α β : Type} [DecidableEq α] (l : List (α × β)) (k k' : α) (v : β)
    (h : k' ≠ k) : alookup (aupdate l k v) k' = alookup l k' := by
  have hk : ¬ (k = k') := fun he => h he.symm
  induction l with
  | nil => simp [aupdate, alookup, hk]
  | cons hd t ih =>
    obtain ⟨a, b⟩ := hd
    by_cases ha : a = k
    · subst ha
      simp [aupdate, alookup, hk]
    · by_cases ha' : a = k'
      · subst ha'
        simp [aupdate, ha, alookup]
      · simp [aupdate, ha, alookup, ha', ih]

theorem aupdate_aupdate_self {α β : Type} [DecidableEq α] (l : List (α × β)) (k : α) (v w : β) :
    aupdate (aupdate l k v) k w = aupdate l k w := by
  induction l with
  | nil => simp [aupdate]
  | cons hd t ih =>
    obtain ⟨a, b⟩ := hd
    by_cases h : a = k
    · simp [aupdate, h]
    · simp [aupdate, h, ih]

theorem mem_aupdate {α β : Type} [DecidableEq α] {l : List (α × β)} {k : α} {v : β}
    {p : α × β} (hp : p ∈ aupdate l k v) : p = (k, v) ∨ p ∈ l := by
  induction l with
  | nil => simpa [aupdate] using hp
  | cons hd t ih =>
    obtain ⟨a, b⟩ := hd
    by_cases h : a = k
    · simp [aupdate, h] at hp
      rcases hp with hp | hp
      · exact Or.inl hp
      · exact Or.inr (List.mem_cons_of_mem _ hp)
    · simp [aupdate, h] at hp
      rcases hp with hp | hp
      · exact Or.inr (by simp [hp])
      · rcases ih hp with h' | h'
        · exact Or.inl h'
        · exact Or.inr (List.mem_cons_of_mem _ h')

theorem alookup_mem {α β : Type} [DecidableEq α] {l : List (α × β)} {k : α} {v : β}
    (h : alookup l k = some v) : (k, v) ∈ l := by
  induction l with
  | nil => simp [alookup] at h
  | cons hd t ih =>
    obtain ⟨a, b⟩ := hd
    by_cases ha : a = k
    · subst ha
      simp [alookup] at h
      simp [h]
    · simp [alookup, ha] at h
      exact List.mem_cons_of_mem _ (ih h)

-- ===================== claim C1 =====================

/-- C1 counterexample.  The claim asserts `locked ≤ total` after every
sequence of ledger operations and that any operation that would break it is
rejected.  On the code, starting from a freshly registered client,
`add_account_balance(USDT, 0)` followed by `change_locked_asset_balance(USDT,
+1)` both succeed and leave the entry at `total = 0, locked = 1`, so `locked`
exceeds `total`. -/
theorem c1_locked_can_exceed_total :
    (add_account_balance cBase 0 "USDT" 0).bind
      (fun b1 => change_locked_asset_balance b1 0 "USDT" 1) =
      Except.ok { cBase with assetBalances := [(0, [("USDT", ⟨0, 1⟩)])] } ∧
    getBal { cBase with assetBalances := [(0, [("USDT", (⟨0, 1⟩ : Bal))])] } 0 "USDT" =
      some ⟨0, 1⟩ ∧
    ¬ ((1 : ℚ) ≤ 0) := by
  refine ⟨by decide, by decide, by norm_num⟩

theorem nonneg_setBal {b : Broker} {cid : ℕ} {a : String} {v : Bal}
    (hb : NonnegLedger b) (ht : 0 ≤ v.total) (hl : 0 ≤ v.locked) :
    NonnegLedger (setBal b cid a v) := by
  intro q hq
  simp only [setBal] at hq
  rcases mem_aupdate hq with hq1 | hq2
  · subst hq1
    intro p hp
    rcases mem_aupdate hp with hp1 | hp2
    · subst hp1; exact ⟨ht, hl⟩
    · cases hm : alookup b.assetBalances cid with
      | none => rw [hm] at hp2; simp at hp2
      | some m =>
        rw [hm] at hp2
        simp only [Option.getD_some] at hp2
        exact hb (cid, m) (alookup_mem hm) p hp2
  · exact hb q hq2

theorem change_total_nonneg {b b' : Broker} {cid : ℕ} {a : String} {c : ℚ}
    (hb : NonnegLedger b) (h : change_total_asset_balance b cid a c = Except.ok b') :
    NonnegLedger b' := by
  unfold change_total_asset_balance at h
  split at h
  · split at h
    · exact absurd h (by simp)
    · rename_i m hm
      have hmem := hb (cid, m) (alookup_mem hm)
      split at h
      · split at h
        · exact absurd h (by simp)
        · rename_i e he
          have hent := hmem (a, e) (alookup_mem he)
          split at h
          · exact absurd h (by simp)
          · rename_i hok
            have h' : b' = setBal b cid a ⟨e.total + c, e.locked⟩ := by
              injection h with h'; exact h'.symm
            subst h'
            exact nonneg_setBal hb (le_of_not_lt hok) hent.2
      · rename_i hpos
        split at h
        · exact absurd h (by simp)
        · rename_i e he
          have hent := hmem (a, e) (alookup_mem he)
          have h' : b' = setBal b cid a ⟨e.total + c, e.locked⟩ := by
            injection h with h'; exact h'.symm
          subst h'
          exact nonneg_setBal hb (add_nonneg hent.1 (le_of_not_lt hpos)) hent.2
  · exact absurd h (by simp)

theorem change_locked_nonneg {b b' : Broker} {cid : ℕ} {a : String} {c : ℚ}
    (hb : NonnegLedger b) (h : change_locked_asset_balance b cid a c = Except.ok b') :
    NonnegLedger b' := by
  unfold change_locked_asset_balance at h
  split at h
  · split at h
    · exact absurd h (by simp)
    · rename_i m hm
      have hmem := hb (cid, m) (alookup_mem hm)
      split at h
      · split at h
        · exact absurd h (by simp)
        · rename_i e he
          have hent := hmem (a, e) (alookup_mem he)
          split at h
          · exact absurd h (by simp)
          · rename_i hok
            have h' : b' = setBal b cid a ⟨e.total, e.locked + c⟩ := by
              injection h with h'; exact h'.symm
            subst h'
            exact nonneg_setBal hb hent.1 (le_of_not_lt hok)
      · rename_i hpos
        split at h
        · exact absurd h (by simp)
        · rename_i e he
          have hent := hmem (a, e) (alookup_mem he)
          have h' : b' = setBal b cid a ⟨e.total, e.locked + c⟩ := by
            injection h with h'; exact h'.symm
          subst h'
          exact nonneg_setBal hb hent.1 (add_nonneg hent.2 (le_of_not_lt hpos))
  · exact absurd h (by simp)

theorem add_account_nonneg {b b' : Broker} {cid : ℕ} {a : String} {c : ℚ}
    (hb : NonnegLedger b) (h : add_account_balance b cid a c = Except.ok b') :
    NonnegLedger b' := by
  unfold add_account_balance at h
  split at h
  · split at h
    · exact absurd h (by simp)
    · rename_i m hm
      have hmem := hb (cid, m) (alookup_mem hm)
      split at h
      · exact absurd h (by simp)
      · rename_i hpos
        have hc : 0 ≤ c := le_of_not_lt hpos
        have h' : b' = setBal b cid a
            ⟨((alookup m a).getD ⟨0, 0⟩).total + c, ((alookup m a).getD ⟨0, 0⟩).locked⟩ := by
          injection h with h'; exact h'.symm
        subst h'
        cases he : alookup m a with
        | none =>
          exact nonneg_setBal hb (by simpa using hc) (by simp)
        | some e =>
          have hent := hmem (a, e) (alookup_mem he)
          exact nonneg_setBal hb (by simpa using add_nonneg hent.1 hc) (by simpa using hent.2)
  · exact absurd h (by simp)

/-- C1 amended claim.  What the ledger actually enforces: for every account
and asset, `0 ≤ total` and `0 ≤ locked` each hold after every successful
ledger operation (an operation that would drive either component negative is
rejected by a check that precedes any mutation).  The relation `locked ≤
total` is not enforced — see the counterexample `c1_locked_can_exceed_total`,
where a lock increase beyond the total succeeds. -/
theorem c1_ledger_nonneg_invariant (b b' : Broker) (cid : ℕ) (a : String) (c : ℚ)
    (hb : NonnegLedger b) :
    (change_total_asset_balance b cid a c = Except.ok b' → NonnegLedger b') ∧
    (change_locked_asset_balance b cid a c = Except.ok b' → NonnegLedger b') ∧
    (add_account_balance b cid a c = Except.ok b' → NonnegLedger b') :=
  ⟨fun h => change_total_nonneg hb h,
   fun h => change_locked_nonneg hb h,
   fun h => add_account_nonneg hb h⟩

/-- C1 witness: the amended invariant applied to a concrete deposit. -/
theorem c1_ledger_nonneg_invariant_witness :
    NonnegLedger { cFunded with assetBalances := [(0, [("USDT", ⟨1005, 5⟩), ("BTC", ⟨10, 0⟩)])] } :=
  (c1_ledger_nonneg_invariant cFunded
      { cFunded with assetBalances := [(0, [("USDT", ⟨1005, 5⟩), ("BTC", ⟨10, 0⟩)])] }
      0 "USDT" 5 (by decide)).1 (by decide)

-- ===================== claim C4 =====================

/-- C4 counterexample.  The claim says raising leverage with an open position
fails and lowering succeeds.  On the code the guard is `size != 0 and
self.leverage > leverage`, which is the mirror image: with an open position of
size 1 at leverage 5, raising to 10 succeeds and stores 10, while lowering to
3 fails and leaves the leverage at 5 (identically in both implementations). -/
theorem c4_set_leverage_cex :
    BinanceMargin.set_leverage c4Acc 10 = (true, { c4Acc with leverage := 10 }) ∧
    BinanceMargin.set_leverage c4Acc 3 = (false, c4Acc) ∧
    FuturesMargin.set_leverage c4Acc 10 = (true, { c4Acc with leverage := 10 }) ∧
    FuturesMargin.set_leverage c4Acc 3 = (false, c4Acc) ∧
    c4Acc.size ≠ 0 ∧ c4Acc.leverage < 10 := by
  refine ⟨by decide, by decide, by decide, by decide, by decide, by decide⟩

/-- C4 amended claim.  `set_leverage(new)` returns failure and leaves the
account unchanged exactly when `size ≠ 0` and `new` is below the current
leverage; in every other case — including raising leverage with an open
position — it stores `new` and reports success.  Both implementations agree. -/
theorem c4_set_leverage_rule (a : MarginAccountUSDM) (newLev : ℚ) :
    (a.size ≠ 0 ∧ newLev < a.leverage →
      BinanceMargin.set_leverage a newLev = (false, a) ∧
      FuturesMargin.set_leverage a newLev = (false, a)) ∧
    (a.size = 0 ∨ a.leverage ≤ newLev →
      BinanceMargin.set_leverage a newLev = (true, { a with leverage := newLev }) ∧
      FuturesMargin.set_leverage a newLev = (true, { a with leverage := newLev })) := by
  constructor
  · rintro ⟨hs, hl⟩
    constructor
    · unfold BinanceMargin.set_leverage
      rw [if_pos ⟨hs, hl⟩]
    · unfold FuturesMargin.set_leverage
      rw [if_pos ⟨hs, hl⟩]
  · intro h
    have hcond : ¬ (a.size ≠ 0 ∧ a.leverage > newLev) := by
      rcases h with h | h
      · simp [h]
      · intro hc
        exact absurd hc.2 (not_lt.mpr h)
    constructor
    · unfold BinanceMargin.set_leverage
      rw [if_neg hcond]
    · unfold FuturesMargin.set_leverage
      rw [if_neg hcond]

/-- C4 witness: lowering with an open position is refused by both
implementations at a concrete account. -/
theorem c4_set_leverage_rule_witness :
    BinanceMargin.set_leverage c4Acc 3 = (false, c4Acc) ∧
    FuturesMargin.set_leverage c4Acc 3 = (false, c4Acc) :=
  (c4_set_leverage_rule c4Acc 3).1 (by decide)

-- ===================== claim C5 =====================

/-- C5.  The claim states both implementations compute `max(0, min(wallet −
maintenance_margin, wallet + pnl − mark_price × |size| / leverage))`.  At a
concrete account (wallet 1000, size 1, entry = mark = 100, leverage 2,
maintenance rate 0.005) the spec formula and `binance_futures.py` both give
950, but `_binance.py` multiplies the last term by the leverage instead of
dividing and returns 800: the `_binance.py` code diverges from the formula its
own docstring cites and from its sibling implementation. -/
theorem c5_max_removable_divergence :
    specMaxRemovable c5Acc = 950 ∧
    FuturesMargin.get_max_removable c5Acc = 950 ∧
    BinanceMargin.get_max_removable c5Acc = 800 ∧
    BinanceMargin.get_max_removable c5Acc ≠ specMaxRemovable c5Acc := by
  refine ⟨by decide, by decide, by decide, by decide⟩

-- ===================== claim C10 =====================

/-- C10.  For a registered client and a listed asset that the client has never
held, `get_assets_available`, `change_total_asset_balance` and
`change_locked_asset_balance` all raise `KeyError` (the bare dict access, not
one of the source's own `ValueError` checks), because the per-asset entry is
created only by `add_account_balance`, which is also shown: on the missing
entry it creates `[0, 0]` and adds the amount. -/
theorem c10_missing_entry_keyerror (b : Broker) (cid : ℕ) (asset : String)
    (m : List (String × Bal)) (hm : alookup b.assetBalances cid = some m)
    (ha : asset ∈ ASSETS) (hnone : alookup m asset = none) :
    get_assets_available b cid asset = Except.error Err.keyError ∧
    (∀ c : ℚ, change_total_asset_balance b cid asset c = Except.error Err.keyError) ∧
    (∀ c : ℚ, change_locked_asset_balance b cid asset c = Except.error Err.keyError) ∧
    Err.keyError ≠ Err.valueError ∧
    (∀ amt : ℚ, 0 ≤ amt →
      add_account_balance b cid asset amt = Except.ok (setBal b cid asset ⟨0 + amt, 0⟩)) := by
  refine ⟨?_, ?_, ?_, by decide, ?_⟩
  · simp only [get_assets_available, if_pos ha, hm, hnone]
  · intro c
    simp only [change_total_asset_balance, if_pos ha, hm, hnone]
    split <;> rfl
  · intro c
    simp only [change_locked_asset_balance, if_pos ha, hm, hnone]
    split <;> rfl
  · intro amt hamt
    simp only [add_account_balance, if_pos ha, hm, hnone]
    rw [if_neg (not_lt.mpr hamt)]
    rfl

/-- C10 witness: the freshly registered client 0 has no USDT entry, and the
three accessors raise `KeyError` while a deposit creates the entry. -/
theorem c10_missing_entry_keyerror_witness :
    get_assets_available cBase 0 "USDT" = Except.error Err.keyError ∧
    change_total_asset_balance cBase 0 "USDT" 5 = Except.error Err.keyError ∧
    change_locked_asset_balance cBase 0 "USDT" 5 = Except.error Err.keyError ∧
    add_account_balance cBase 0 "USDT" 7 = Except.ok (setBal cBase 0 "USDT" ⟨0 + 7, 0⟩) :=
  ⟨(c10_missing_entry_keyerror cBase 0 "USDT" [] (by decide) (by decide) (by decide)).1,
   (c10_missing_entry_keyerror cBase 0 "USDT" [] (by decide) (by decide) (by decide)).2.1 5,
   (c10_missing_entry_keyerror cBase 0 "USDT" [] (by decide) (by decide) (by decide)).2.2.1 5,
   (c10_missing_entry_keyerror cBase 0 "USDT" [] (by decide) (by decide) (by decide)).2.2.2.2 7
     (by norm_num)⟩

-- ===================== claim C2 =====================

theorem get_price_unknown_market (b : Broker) (symbol : String) :
    get_price b symbol "mkt" = Except.error Err.valueError := by
  unfold get_price
  rw [if_neg (by decide), if_neg (by decide)]

/-- C2 counterexample.  The claim says a market Bid at reference price 50000
succeeds and locks `0.01 × 50000 = 500` USDT.  On the code, `create_mkt_order`
fetches the reference price with `get_price(symbol, mkt='mkt')`; `'mkt'` is
not a recognised market, so every market Bid submission raises `ValueError`
and no balance changes (only the order-id counter was already incremented).
The Ask leg of the claim also fails: a market Ask locks the suffix asset of
the symbol split (USDT for BTCUSDT), not the base asset BTC. -/
theorem c2_market_order_lock_cex :
    (create_mkt_order c2State 0 "BTCUSDT" (1/100) Side.bid).1 = Except.error Err.valueError ∧
    (create_mkt_order c2State 0 "BTCUSDT" (1/100) Side.bid).2.assetBalances =
      c2State.assetBalances ∧
    getBal (create_mkt_order c2State 0 "BTCUSDT" (1/100) Side.bid).2 0 "USDT" =
      some ⟨1000, 5⟩ ∧
    (create_mkt_order c2State 0 "BTCUSDT" 2 Side.ask).1 = Except.ok 0 ∧
    getBal (create_mkt_order c2State 0 "BTCUSDT" 2 Side.ask).2 0 "USDT" = some ⟨1000, 7⟩ ∧
    getBal (create_mkt_order c2State 0 "BTCUSDT" 2 Side.ask).2 0 "BTC" = some ⟨10, 0⟩ := by
  refine ⟨by decide, by decide, by decide, by decide, by decide, by decide⟩

/-- C2 amended claim.  For every state and client, submitting a market Bid for
BTCUSDT raises `ValueError` (the internal `get_price` call passes the
unrecognised market string `'mkt'`) before any balance mutation: the returned
state differs from the input state only in the already-incremented order-id
counter, so no funds are locked and no `locked_price` is ever cached.  A
market Ask with a non-negative quantity succeeds and locks `quantity` of the
suffix asset of the symbol split (USDT), appending the order to the pending
market queue. -/
theorem c2_market_order_submission (b : Broker) (cid : ℕ) (qty : ℚ)
    (m : List (String × Bal)) (e : Bal)
    (hm : alookup b.assetBalances cid = some m)
    (he : alookup m "USDT" = some e)
    (hq : 0 ≤ qty) :
    create_mkt_order b cid "BTCUSDT" qty Side.bid =
      (Except.error Err.valueError, { b with orderID := b.orderID + 1 }) ∧
    create_mkt_order b cid "BTCUSDT" qty Side.ask =
      (Except.ok b.orderID,
       { setBal { b with orderID := b.orderID + 1 } cid "USDT" ⟨e.total, e.locked + qty⟩ with
         mktOrders := b.mktOrders ++
           [⟨b.orderID, cid, Side.ask, "BTCUSDT", qty, OType.mkt, none, none⟩]
         orders := aupdate b.orders b.orderID
           ⟨b.orderID, cid, Side.ask, "BTCUSDT", qty, OType.mkt, none, none⟩ }) := by
  have hsplit : split_symbol "BTCUSDT" ASSETS = Except.ok ("BTC", "USDT") := by decide
  have hlock : change_locked_asset_balance { b with orderID := b.orderID + 1 } cid "USDT" qty
      = Except.ok (setBal { b with orderID := b.orderID + 1 } cid "USDT"
          ⟨e.total, e.locked + qty⟩) := by
    simp only [change_locked_asset_balance, setBal, hm, he]
    rw [if_pos (by decide), if_neg (not_lt.mpr hq)]
  constructor
  · simp only [create_mkt_order, hsplit, get_price_unknown_market]
  · simp only [create_mkt_order, hsplit, hlock, setBal, hm]

/-- C2 witness: the amended submission behaviour at a concrete funded state. -/
theorem c2_market_order_submission_witness :
    create_mkt_order c2State 0 "BTCUSDT" 2 Side.bid =
      (Except.error Err.valueError, { c2State with orderID := c2State.orderID + 1 }) :=
  (c2_market_order_submission c2State 0 2 [("USDT", ⟨1000, 5⟩), ("BTC", ⟨10, 0⟩)] ⟨1000, 5⟩
    (by decide) (by decide) (by norm_num)).1

-- ===================== claim C3 =====================

theorem getBal_of_lookups {b : Broker} {cid : ℕ} {a : String} {m : List (String × Bal)}
    {e : Bal} (hm : alookup b.assetBalances cid = some m) (he : alookup m a = some e) :
    getBal b cid a = some e := by
  unfold getBal
  rw [hm]
  simpa using he

theorem getBal_setBal_self (b : Broker) (cid : ℕ) (a : String) (v : Bal) :
    getBal (setBal b cid a v) cid a = some v := by
  unfold getBal setBal
  simp only [alookup_aupdate_self, Option.bind_some, Option.getD_some]
  exact alookup_aupdate_self _ _ _

theorem getBal_setBal_ne (b : Broker) (cid : ℕ) (a a' : String) (v : Bal) (hne : a' ≠ a) :
    getBal (setBal b cid a v) cid a' = getBal b cid a' := by
  unfold getBal setBal
  rw [alookup_aupdate_self]
  simp only [Option.some_bind]
  rw [alookup_aupdate_ne _ _ _ _ hne]
  cases hm : alookup b.assetBalances cid with
  | none => simp [alookup]
  | some m => simp

theorem getBal_execLog_update (b : Broker) (el : List Execution) (cid : ℕ) (a : String) :
    getBal { b with execLog := el } cid a = getBal b cid a := rfl

theorem getBal_commissions_update (b : Broker) (cs : List (ℕ × List (String × ℚ)))
    (cid : ℕ) (a : String) :
    getBal { b with commissions := cs } cid a = getBal b cid a := rfl

theorem commOf_execLog_update (b : Broker) (el : List Execution) (cid : ℕ) (a : String) :
    commOf { b with execLog := el } cid a = commOf b cid a := rfl

theorem change_total_ok_elim {b b' : Broker} {cid : ℕ} {a : String} {c : ℚ}
    (h : change_total_asset_balance b cid a c = Except.ok b') :
    ∃ m e, alookup b.assetBalances cid = some m ∧ alookup m a = some e ∧
      b' = setBal b cid a ⟨e.total + c, e.locked⟩ := by
  unfold change_total_asset_balance at h
  split at h
  · split at h
    · exact absurd h (by simp)
    · rename_i m hm
      split at h
      · split at h
        · exact absurd h (by simp)
        · rename_i e he
          split at h
          · exact absurd h (by simp)
          · exact ⟨m, e, hm, he, by injection h with h'; exact h'.symm⟩
      · split at h
        · exact absurd h (by simp)
        · rename_i e he
          exact ⟨m, e, hm, he, by injection h with h'; exact h'.symm⟩
  · exact absurd h (by simp)

theorem change_locked_ok_elim {b b' : Broker} {cid : ℕ} {a : String} {c : ℚ}
    (h : change_locked_asset_balance b cid a c = Except.ok b') :
    ∃ m e, alookup b.assetBalances cid = some m ∧ alookup m a = some e ∧
      b' = setBal b cid a ⟨e.total, e.locked + c⟩ := by
  unfold change_locked_asset_balance at h
  split at h
  · split at h
    · exact absurd h (by simp)
    · rename_i m hm
      split at h
      · split at h
        · exact absurd h (by simp)
        · rename_i e he
          split at h
          · exact absurd h (by simp)
          · exact ⟨m, e, hm, he, by injection h with h'; exact h'.symm⟩
      · split at h
        · exact absurd h (by simp)
        · rename_i e he
          exact ⟨m, e, hm, he, by injection h with h'; exact h'.symm⟩
  · exact absurd h (by simp)

theorem add_commission_ok_elim {b b' : Broker} {cid : ℕ} {a : String} {c : ℚ}
    (h : add_commission b cid a c = Except.ok b') :
    ∃ cm, alookup b.commissions cid = some cm ∧
      b' = { b with commissions := aupdate b.commissions cid (aupdate cm a ((alookup cm a).getD 0 + c)) } := by
  unfold add_commission at h
  split at h
  · split at h
    · exact absurd h (by simp)
    · rename_i cm hcm
      refine ⟨cm, hcm, ?_⟩
      cases hca : alookup cm a with
      | none =>
        rw [hca] at h
        simp only [Option.getD_none, zero_add]
        injection h with h'
        exact h'.symm
      | some c0 =>
        rw [hca] at h
        simp only [Option.getD_some]
        injection h with h'
        exact h'.symm
  · exact absurd h (by simp)

/-- C3 counterexample.  The claim says the ledger adjustments debit the
commission from the proceeds asset so that the asset deltas plus the
commission reconcile to zero.  On the code, executing a resting limit Ask of
quantity 1 at price 100 with commission 1/10 credits the proceeds asset (BTC,
the first component of the symbol split) by the full `quantity × price = 100`
— the commission is only recorded in the separate commissions map, never
debited from any balance — so the proceeds delta is 100, not `100 − 1/10`. -/
theorem c3_commission_not_debited_cex :
    exec_order c3State c3Order 100 (1/10) = Except.ok c3Result ∧
    getBal c3Result 0 "BTC" = some ⟨110, 0⟩ ∧
    getBal c3State 0 "BTC" = some ⟨10, 0⟩ ∧
    commOf c3Result 0 "BTC" = 1/10 ∧
    ((110 : ℚ) - 10 ≠ 1 * 100 - 1/10) := by
  refine ⟨by decide, by decide, by decide, by decide, by decide⟩

/-- C3 amended claim.  For every successfully executed fill: the lock is
released (Bid: the order value at the locked/limit price comes off the locked
component of `assets[0]`; Ask: the quantity comes off the locked component of
`assets[1]`), the sold asset is debited and the bought asset credited so that
the price-weighted total deltas of the two legs cancel exactly, and the
commission is accumulated in the client's separate commissions map — it is
not debited from any asset balance, so no value is removed from the ledger by
a fill.  The callback receives the execution record. -/
theorem c3_exec_order_ledger_effect (b b' : Broker) (o : Order) (price comm : ℚ)
    (a0 a1 : String) (e0 e1 : Bal)
    (hsplit : split_symbol o.symbol ASSETS = Except.ok (a0, a1))
    (hne : a0 ≠ a1)
    (h0 : getBal b o.clientID a0 = some e0)
    (h1 : getBal b o.clientID a1 = some e1)
    (hx : exec_order b o price comm = Except.ok b') :
    (o.side = Side.bid → ∃ v, lockValue o = some v ∧
        getBal b' o.clientID a0 = some ⟨e0.total - o.quantity * price, e0.locked - v⟩ ∧
        getBal b' o.clientID a1 = some ⟨e1.total + o.quantity, e1.locked⟩) ∧
    (o.side = Side.ask →
        getBal b' o.clientID a1 = some ⟨e1.total - o.quantity, e1.locked - o.quantity⟩ ∧
        getBal b' o.clientID a0 = some ⟨e0.total + o.quantity * price, e0.locked⟩) ∧
    commOf b' o.clientID a0 = commOf b o.clientID a0 + comm ∧
    b'.execLog = b.execLog ++ [mkExecution o price comm] := by
  simp only [exec_order, calc_slippage, hsplit] at hx
  cases ho : o.side with
  | bid =>
    simp only [ho] at hx
    cases hlv : lockValue o with
    | none =>
      simp only [show (match o.type_ with
            | OType.mkt => o.get_value o.lockedPrice
            | OType.lmt => o.get_value none) = lockValue o from rfl, hlv] at hx
      exact absurd hx (by simp)
    | some v =>
      simp only [show (match o.type_ with
            | OType.mkt => o.get_value o.lockedPrice
            | OType.lmt => o.get_value none) = lockValue o from rfl, hlv] at hx
      cases hcl : change_locked_asset_balance b o.clientID a0 (-v) with
      | error e =>
        simp only [hcl] at hx
        exact absurd hx (by simp)
      | ok b1 =>
        simp only [hcl] at hx
        obtain ⟨m₁, ee, hm₁, hee, hb1⟩ := change_locked_ok_elim hcl
        have he0 : ee = e0 := by
          have := (getBal_of_lookups hm₁ hee).symm.trans h0
          injection this
        simp only [he0] at hb1
        rw [hb1] at hx
        cases hct0 : change_total_asset_balance
            (setBal b o.clientID a0 ⟨e0.total, e0.locked + -v⟩) o.clientID a0
            (-(o.quantity * price)) with
        | error e =>
          simp only [hct0] at hx
          exact absurd hx (by simp)
        | ok b2 =>
          simp only [hct0] at hx
          obtain ⟨m₂, ee₂, hm₂, hee₂, hb2⟩ := change_total_ok_elim hct0
          have he2 : ee₂ = ⟨e0.total, e0.locked + -v⟩ := by
            have := (getBal_of_lookups hm₂ hee₂).symm.trans
              (getBal_setBal_self b o.clientID a0 ⟨e0.total, e0.locked + -v⟩)
            injection this
          simp only [he2] at hb2
          rw [hb2] at hx
          cases hct1 : change_total_asset_balance
              (setBal (setBal b o.clientID a0 ⟨e0.total, e0.locked + -v⟩) o.clientID a0
                ⟨e0.total + -(o.quantity * price), e0.locked + -v⟩) o.clientID a1
              o.quantity with
          | error e =>
            simp only [hct1] at hx
            exact absurd hx (by simp)
          | ok b3 =>
            simp only [hct1] at hx
            obtain ⟨m₃, ee₃, hm₃, hee₃, hb3⟩ := change_total_ok_elim hct1
            have he3 : ee₃ = e1 := by
              have h1' := getBal_of_lookups hm₃ hee₃
              rw [getBal_setBal_ne _ _ _ _ _ hne.symm, getBal_setBal_ne _ _ _ _ _ hne.symm,
                h1] at h1'
              have h1'' := h1'.symm
              injection h1''
            simp only [he3] at hb3
            rw [hb3] at hx
            cases hac : add_commission
                (setBal (setBal (setBal b o.clientID a0 ⟨e0.total, e0.locked + -v⟩) o.clientID a0
                  ⟨e0.total + -(o.quantity * price), e0.locked + -v⟩) o.clientID a1
                  ⟨e1.total + o.quantity, e1.locked⟩) o.clientID a0 comm with
            | error e =>
              simp only [hac] at hx
              exact absurd hx (by simp)
            | ok b4 =>
              simp only [hac] at hx
              obtain ⟨cm, hcm, hb4⟩ := add_commission_ok_elim hac
              injection hx with hb'
              refine ⟨fun _ => ⟨v, rfl, ?_, ?_⟩, fun hcon => absurd hcon (by decide), ?_, ?_⟩
              · rw [← hb', getBal_execLog_update, hb4, getBal_commissions_update,
                  getBal_setBal_ne _ _ _ _ _ hne, getBal_setBal_self]
                simp [sub_eq_add_neg]
              · rw [← hb', getBal_execLog_update, hb4, getBal_commissions_update,
                  getBal_setBal_self]
              · rw [← hb', commOf_execLog_update, hb4]
                unfold commOf
                simp only [alookup_aupdate_self, Option.getD_some]
                have hcm' : alookup b.commissions o.clientID = some cm := hcm
                rw [hcm']
                simp only [Option.getD_some]
              · rw [← hb', hb4]
                rfl
  | ask =>
    simp only [ho] at hx
    cases hcl : change_locked_asset_balance b o.clientID a1 (-o.quantity) with
    | error e =>
      simp only [hcl] at hx
      exact absurd hx (by simp)
    | ok b1 =>
      simp only [hcl] at hx
      obtain ⟨m₁, ee, hm₁, hee, hb1⟩ := change_locked_ok_elim hcl
      have he1 : ee = e1 := by
        have := (getBal_of_lookups hm₁ hee).symm.trans h1
        injection this
      simp only [he1] at hb1
      rw [hb1] at hx
      cases hct0 : change_total_asset_balance
          (setBal b o.clientID a1 ⟨e1.total, e1.locked + -o.quantity⟩) o.clientID a1
          (-o.quantity) with
      | error e =>
        simp only [hct0] at hx
        exact absurd hx (by simp)
      | ok b2 =>
        simp only [hct0] at hx
        obtain ⟨m₂, ee₂, hm₂, hee₂, hb2⟩ := change_total_ok_elim hct0
        have he2 : ee₂ = ⟨e1.total, e1.locked + -o.quantity⟩ := by
          have := (getBal_of_lookups hm₂ hee₂).symm.trans
            (getBal_setBal_self b o.clientID a1 ⟨e1.total, e1.locked + -o.quantity⟩)
          injection this
        simp only [he2] at hb2
        rw [hb2] at hx
        cases hct1 : change_total_asset_balance
            (setBal (setBal b o.clientID a1 ⟨e1.total, e1.locked + -o.quantity⟩) o.clientID a1
              ⟨e1.total + -o.quantity, e1.locked + -o.quantity⟩) o.clientID a0
            (o.quantity * price) with
        | error e =>
          simp only [hct1] at hx
          exact absurd hx (by simp)
        | ok b3 =>
          simp only [hct1] at hx
          obtain ⟨m₃, ee₃, hm₃, hee₃, hb3⟩ := change_total_ok_elim hct1
          have he3 : ee₃ = e0 := by
            have h0' := getBal_of_lookups hm₃ hee₃
            rw [getBal_setBal_ne _ _ _ _ _ hne, getBal_setBal_ne _ _ _ _ _ hne, h0] at h0'
            have h0'' := h0'.symm
            injection h0''
          simp only [he3] at hb3
          rw [hb3] at hx
          cases hac : add_commission
              (setBal (setBal (setBal b o.clientID a1 ⟨e1.total, e1.locked + -o.quantity⟩)
                o.clientID a1 ⟨e1.total + -o.quantity, e1.locked + -o.quantity⟩) o.clientID a0
                ⟨e0.total + o.quantity * price, e0.locked⟩) o.clientID a0 comm with
          | error e =>
            simp only [hac] at hx
            exact absurd hx (by simp)
          | ok b4 =>
            simp only [hac] at hx
            obtain ⟨cm, hcm, hb4⟩ := add_commission_ok_elim hac
            injection hx with hb'
            refine ⟨fun hcon => absurd hcon (by decide), fun _ => ⟨?_, ?_⟩, ?_, ?_⟩
            · rw [← hb', getBal_execLog_update, hb4, getBal_commissions_update,
                getBal_setBal_ne _ _ _ _ _ hne.symm, getBal_setBal_self]
              simp [sub_eq_add_neg]
            · rw [← hb', getBal_execLog_update, hb4, getBal_commissions_update,
                getBal_setBal_self]
            · rw [← hb', commOf_execLog_update, hb4]
              unfold commOf
              simp only [alookup_aupdate_self, Option.getD_some]
              have hcm' : alookup b.commissions o.clientID = some cm := hcm
              rw [hcm']
              simp only [Option.getD_some]
            · rw [← hb', hb4]
              rfl

/-- C3 witness: the amended fill accounting at the concrete Ask execution. -/
theorem c3_exec_order_ledger_effect_witness :
    getBal c3Result 0 "USDT" = some ⟨5 - 1, 2 - 1⟩ ∧
    getBal c3Result 0 "BTC" = some ⟨10 + 1 * 100, 0⟩ :=
  (c3_exec_order_ledger_effect c3State c3Result c3Order 100 (1/10) "BTC" "USDT"
    ⟨10, 0⟩ ⟨5, 2⟩ (by decide) (by decide) (by decide) (by decide) (by decide)).2.1 rfl

-- ===================== claim C6 =====================

/-- C6.  The claim says `check_orders` executes exactly the resting limit
orders whose ask price level is at most the reference price (respectively bid
level at least the price) and leaves every other resting order in the book.
The code diverges twice, exhibited on `c6Book` (two asks of quantity 1,
order ids 0 and 1, resting at price level 3/2, reference price 1): first,
`get_keys_below` compares `int(key) <= price`, and `int(3/2) = 1 ≤ 1` selects
the level although `3/2 > 1`; second, the loop pops each executed order out of
the very list it is iterating, so the element after it is skipped — only
order 0 is executed and removed, order 1 stays in the book.  The claim would
require no execution at all here, and in general that every order of a
selected level executes. -/
theorem c6_check_orders_divergence :
    pyInt (3/2) = 1 ∧ ¬ ((3 : ℚ)/2 ≤ 1) ∧
    (askLevel c6Book "BTCUSDT" (3/2)).map Order.orderID = [0, 1] ∧
    (check_orders c6Book "BTCUSDT" "spot").map
      (fun b' => ((askLevel b' "BTCUSDT" (3/2)).map Order.orderID,
                  b'.execLog.map Execution.orderID)) = Except.ok ([1], [0]) := by
  refine ⟨by decide, by decide, by decide, by decide⟩

-- ===================== claim C7 =====================

/-- C7.  `close_order` fails with the unknown-order `ValueError` when the id
is not registered, and the failure precedes any mutation.  For a registered
order the call removes exactly the first queue/book occurrence with that
order id from the structure that holds it — the pending-market queue for a
market order, the bid or ask price level at the order's limit price for a
limit order — and the resulting state keeps `assetBalances` (every total and
locked balance) exactly unchanged: locked funds are not released. -/
theorem c7_close_order_frame (b : Broker) (oid : ℕ) :
    (alookup b.orders oid = none → close_order b oid = Except.error Err.valueError) ∧
    (∀ o, alookup b.orders oid = some o →
      (∀ l, o.type_ = OType.mkt → popFirstByID o.orderID b.mktOrders = some l →
        close_order b oid = Except.ok { b with mktOrders := l } ∧
        ({ b with mktOrders := l } : Broker).assetBalances = b.assetBalances) ∧
      (∀ lp lvls l l', o.type_ = OType.lmt → o.lmtPrice = some lp → o.side = Side.bid →
        alookup b.bids o.symbol = some lvls → alookup lvls lp = some l →
        popFirstByID o.orderID l = some l' →
        close_order b oid =
          Except.ok { b with bids := aupdate b.bids o.symbol (aupdate lvls lp l') } ∧
        ({ b with bids := aupdate b.bids o.symbol (aupdate lvls lp l') } : Broker).assetBalances =
          b.assetBalances) ∧
      (∀ lp lvls l l', o.type_ = OType.lmt → o.lmtPrice = some lp → o.side = Side.ask →
        alookup b.asks o.symbol = some lvls → alookup lvls lp = some l →
        popFirstByID o.orderID l = some l' →
        close_order b oid =
          Except.ok { b with asks := aupdate b.asks o.symbol (aupdate lvls lp l') } ∧
        ({ b with asks := aupdate b.asks o.symbol (aupdate lvls lp l') } : Broker).assetBalances =
          b.assetBalances)) := by
  constructor
  · intro hnone
    simp only [close_order, hnone]
  · intro o hor
    refine ⟨?_, ?_, ?_⟩
    · intro l ht hpop
      simp only [close_order, hor, remove_order, ht, hpop]
      exact ⟨trivial, trivial⟩
    · intro lp lvls l l' ht hlp hside hlvls hl hpop
      simp only [close_order, hor, remove_order, ht, hlp, hside, hlvls, hl, hpop]
      exact ⟨trivial, trivial⟩
    · intro lp lvls l l' ht hlp hside hlvls hl hpop
      simp only [close_order, hor, remove_order, ht, hlp, hside, hlvls, hl, hpop]
      exact ⟨trivial, trivial⟩

/-- C7 witness: cancelling the first resting ask of `c6Book` removes exactly
that order from the 3/2 price level and leaves every balance untouched. -/
theorem c7_close_order_frame_witness :
    close_order c6Book 0 = Except.ok { c6Book with asks := aupdate c6Book.asks "BTCUSDT" (aupdate [((3:ℚ)/2, [c7Ord0, c7Ord1])] (3/2) [c7Ord1]) } ∧
    ({ c6Book with asks := aupdate c6Book.asks "BTCUSDT" (aupdate [((3:ℚ)/2, [c7Ord0, c7Ord1])] (3/2) [c7Ord1]) } : Broker).assetBalances =
      c6Book.assetBalances :=
  (((c7_close_order_frame c6Book 0).2 c7Ord0 (by decide)).2.2 (3/2)
    [((3:ℚ)/2, [c7Ord0, c7Ord1])] [c7Ord0, c7Ord1] [c7Ord1] (by decide) (by decide)
    (by decide) (by decide) (by decide) (by decide))

-- ===================== claim C8 =====================

/-- C8 counterexample.  The claim says two bar updates of the same (market,
symbol, interval) key between two `send_mkt_data` calls lead to exactly one
callback invocation carrying the second value.  On the code,
`update_klines` appends the interval to the per-symbol dirty list on every
call without a duplicate check, and `send_mkt_data` iterates over that list,
so the one subscriber of `c8Base` is invoked twice — both times with the
latest cached value. -/
theorem c8_coalescing_cex :
    ((update_klines c8Base "BTCUSDT" "1m" c8k1 "spot").bind
      (fun b1 => update_klines b1 "BTCUSDT" "1m" c8k2 "spot")).bind
      (fun b2 => (send_mkt_data b2).map Prod.snd) =
      Except.ok [Delivery.kline 7 c8k2, Delivery.kline 7 c8k2] ∧
    [Delivery.kline 7 c8k2, Delivery.kline 7 c8k2] ≠ [Delivery.kline 7 c8k2] := by
  refine ⟨by decide, by decide⟩

/-- C8 amended claim.  Starting from a clean dirty set, two kline updates for
the same streamed (spot, symbol, interval) key followed by one
`send_mkt_data` invoke each current subscriber's callback once per buffered
update — here exactly twice — and every invocation carries the second
(latest) cached value; the first value is overwritten and never delivered. -/
theorem c8_update_delivery_count (b : Broker) (s iv : String) (k1 k2 : Kline)
    (km : List (String × List (String × Kline)))
    (ss : List (String × List (String × List ℕ)))
    (ivm : List (String × List ℕ)) (socks : List ℕ)
    (hU : b.klinesUpdated = [("spot", []), ("margin", [])])
    (hM : b.markPriceUpdated = [])
    (hK : alookup b.klines "spot" = some km)
    (hS : alookup b.klineStreamingSymbols "spot" = some ss)
    (hs2 : alookup ss s = some ivm)
    (hs3 : alookup ivm iv = some socks) :
    ((update_klines b s iv k1 "spot").bind
      (fun b1 => update_klines b1 s iv k2 "spot")).bind
      (fun b2 => (send_mkt_data b2).map Prod.snd) =
      Except.ok (socks.map (fun c => Delivery.kline c k2) ++
                 socks.map (fun c => Delivery.kline c k2)) := by
  simp [update_klines, send_mkt_data, sendMarkLoop, sendKlineSymLoop, sendKlineIvLoop,
    hU, hM, hK, hS, hs2, hs3, alookup, aupdate, alookup_aupdate_self, aupdate_aupdate_self,
    Except.bind, Except.map]

/-- C8 witness: the amended delivery count at the concrete one-subscriber
state. -/
theorem c8_update_delivery_count_witness :
    ((update_klines c8Base "BTCUSDT" "1m" c8k1 "spot").bind
      (fun b1 => update_klines b1 "BTCUSDT" "1m" c8k2 "spot")).bind
      (fun b2 => (send_mkt_data b2).map Prod.snd) =
      Except.ok ([7].map (fun c => Delivery.kline c c8k2) ++
                 [7].map (fun c => Delivery.kline c c8k2)) :=
  c8_update_delivery_count c8Base "BTCUSDT" "1m" c8k1 c8k2 [] [("BTCUSDT", [("1m", [7])])]
    [("1m", [7])] [7] (by decide) (by decide) (by decide) (by decide) (by decide) (by decide)

-- ===================== claim C9 =====================

theorem tickLoop_spec (T : ℤ) (l : List TradeRow) :
    tickLoop T l =
      ((l.takeWhile (fun t => decide (t.time ≤ T))).bind
        (fun t => [Ev.tick t, Ev.chk t.symbol]),
       l.dropWhile (fun t => decide (t.time ≤ T))) := by
  induction l with
  | nil => simp [tickLoop]
  | cons r rest ih =>
    by_cases h : r.time ≤ T
    · simp [tickLoop, h, List.takeWhile_cons, List.dropWhile_cons, ih]
    · simp [tickLoop, h, List.takeWhile_cons, List.dropWhile_cons]

theorem klineLoop_spec (T : ℤ) (l : List KlineRow) :
    klineLoop T l =
      ((l.takeWhile (fun k => decide (k.closeTime ≤ T))).map Ev.kline,
       l.dropWhile (fun k => decide (k.closeTime ≤ T))) := by
  induction l with
  | nil => simp [klineLoop]
  | cons r rest ih =>
    by_cases h : r.closeTime ≤ T
    · simp [klineLoop, h, List.takeWhile_cons, List.dropWhile_cons, ih]
    · simp [klineLoop, h, List.takeWhile_cons, List.dropWhile_cons]

theorem chain'_le_all {l : List TradeRow} {a : TradeRow}
    (h : List.Chain' (fun x y : TradeRow => x.time ≤ y.time) (a :: l)) :
    ∀ x ∈ l, a.time ≤ x.time := by
  induction l generalizing a with
  | nil => intro x hx; cases hx
  | cons b t ih =>
    intro x hx
    have h' := List.chain'_cons.mp h
    rcases List.mem_cons.mp hx with rfl | hx
    · exact h'.1
    · exact le_trans h'.1 (ih h'.2 x hx)

theorem takeWhile_le_eq_filter_eq (T : ℤ) (l : List TradeRow)
    (hchain : List.Chain' (fun a b : TradeRow => a.time ≤ b.time) l)
    (hbound : ∀ x ∈ l, T ≤ x.time) :
    l.takeWhile (fun t => decide (t.time ≤ T)) = l.filter (fun t => decide (t.time = T)) := by
  induction l with
  | nil => simp
  | cons a l ih =>
    have hb : T ≤ a.time := hbound a (List.mem_cons_self a l)
    by_cases h : a.time ≤ T
    · have heq : a.time = T := le_antisymm h hb
      have hl : ∀ x ∈ l, T ≤ x.time := by
        intro x hx
        calc T = a.time := heq.symm
          _ ≤ x.time := chain'_le_all hchain x hx
      simp only [List.takeWhile_cons, List.filter_cons, heq, decide_True, le_refl, if_true]
      rw [ih hchain.tail hl]
    · have hlt : T < a.time := lt_of_not_le h
      have hfil : l.filter (fun t => decide (t.time = T)) = [] := by
        rw [List.filter_eq_nil]
        intro x hx
        have hax : a.time ≤ x.time := chain'_le_all hchain x hx
        simp only [decide_eq_true_eq]
        intro hxe
        exact absurd (hxe ▸ hax) (not_le.mpr hlt)
      simp [List.takeWhile_cons, List.filter_cons, h, hfil, show ¬(a.time = T) from
        fun he => absurd (he ▸ le_refl a.time) (fun hc => h (le_of_eq he))]

/-- C9.  One step of `run_backtest` with at least one remaining trade row
emits, in order: every due trade row (timestamp at most the step time, which
is the head row's timestamp) in original input order, each immediately
followed by the `check_orders` call for that row's symbol; then every due
kline flush (close time at most the step time), and finally exactly one
`send_mkt_data` — after which the loop continues on the remaining rows.
When the trade rows are sorted by timestamp (as the driver requires), the due
rows are exactly the rows sharing the step's timestamp. -/
theorem c9_step_ordering (n : ℕ) (r : TradeRow) (rest : List TradeRow) (ks : List KlineRow) :
    run_backtest (n + 1) (r :: rest) ks =
      ((r :: rest).takeWhile (fun t => decide (t.time ≤ r.time))).bind
        (fun t => [Ev.tick t, Ev.chk t.symbol]) ++
      (ks.takeWhile (fun k => decide (k.closeTime ≤ r.time))).map Ev.kline ++
      [Ev.send] ++
      run_backtest n ((r :: rest).dropWhile (fun t => decide (t.time ≤ r.time)))
        (ks.dropWhile (fun k => decide (k.closeTime ≤ r.time))) ∧
    (List.Chain' (fun a b : TradeRow => a.time ≤ b.time) (r :: rest) →
      (r :: rest).takeWhile (fun t => decide (t.time ≤ r.time)) =
        (r :: rest).filter (fun t => decide (t.time = r.time))) := by
  constructor
  · simp [run_backtest, tickLoop_spec, klineLoop_spec]
  · intro hchain
    refine takeWhile_le_eq_filter_eq r.time (r :: rest) hchain ?_
    intro x hx
    rcases List.mem_cons.mp hx with hx | hx
    · exact le_of_eq (by rw [hx])
    · exact chain'_le_all hchain x hx

/-- C9 witness: with two ticks sharing timestamp 10, the due set of the first
step is exactly the rows with timestamp 10. -/
theorem c9_step_ordering_witness :
    c9Trades.takeWhile (fun t => decide (t.time ≤ (10 : ℤ))) =
      c9Trades.filter (fun t => decide (t.time = (10 : ℤ))) :=
  (c9_step_ordering 0 ⟨10, "BTCUSDT", 1, 1⟩ [⟨10, "ADAAUD", 2, 1⟩, ⟨20, "BTCUSDT", 3, 1⟩]
    c9Klines).2 (by norm_num [List.chain'_cons])
